import Mathlib

/-!
# Verification of the chainlink-ocr-checker transmission discovery engine

A shallow embedding, in Lean 4, of the core of the `chainlink-ocr-checker`
repository: the OCR2 aggregator service (`infrastructure/blockchain/
ocr2_aggregator_service.go`), the two `TransmissionFetcher` variants (the
naive one and the optimized one), the range planners, the round locator with
its round-to-block cache, and the parameter validation of the fetch and watch
use cases (`application/usecases`).

Modelling conventions:
* Go machine integers (`uint8`, `uint32`, `uint64`) are modelled as `Nat`
  with explicit `% 2^w` at every operation where the Go code can wrap.
* The chain RPC (ethclient + the generated aggregator bindings) is an opaque
  collaborator; it is modelled as a record of pure functions (`Chain`): a
  deterministic oracle giving, for a fixed contract, the head block number,
  the `NewTransmission` logs of a block range (in log order), the transmitter
  roster visible at a block, and block timestamps.  Fallible RPCs return
  `Except Unit`.
* `time.Time` values are modelled as `Nat` seconds.
* Goroutine completion order (results read from a channel) is modelled by an
  explicit list of chunk indices (`perm`) passed to the functions that, in
  Go, collect results from a channel.
* Loops whose termination depends on wrapping `uint64` arithmetic are
  modelled with explicit fuel and an `Option` result; `none` means the Go
  loop does not terminate within the given fuel.
-/

namespace OCRChecker

/-! ## Definitions: the shallow embedding -/

/-- Modulus of the Go `uint32` type. -/
def U32 : Nat := 2 ^ 32

/-- Modulus of the Go `uint64` type. -/
def U64 : Nat := 2 ^ 64

/-- Wrapping `uint64` subtraction `a - b` (operands assumed `< U64`). -/
def sub64 (a b : Nat) : Nat := (a + U64 - b) % U64

/-- A raw `NewTransmission` log event as decoded by the generated binding
(`FilterNewTransmission`).  Addresses and digests are modelled as `Nat`. -/
structure LogEvent where
  epochAndRound : Nat
  transmitter : Nat
  answer : Int
  observationsTimestamp : Nat
  configDigest : Nat
  blockNumber : Nat
  deriving DecidableEq, Repr

/-- `entities.Transmission` (domain/entities/transmission.go). -/
structure Transmission where
  contractAddress : Nat
  configDigest : Nat
  epoch : Nat
  round : Nat
  latestAnswer : Int
  latestTimestamp : Nat
  transmitterIndex : Nat
  transmitterAddress : Nat
  observerIndex : Nat
  blockNumber : Nat
  blockTimestamp : Nat
  deriving DecidableEq, Repr

/-- `entities.TransmissionResult` (domain/entities/transmission.go). -/
structure TransmissionResult where
  contractAddress : Nat
  startRound : Nat
  endRound : Nat
  transmissions : List Transmission
  deriving DecidableEq, Repr

/-- `entities.BlockRange` (domain/entities/transmission.go). -/
structure BlockRange where
  startBlock : Nat
  endBlock : Nat
  deriving DecidableEq, Repr

/-- The chain RPC oracle for one aggregator contract: head block number,
`NewTransmission` logs over an inclusive block range (in log order), the
transmitter roster of `GetConfigFromBlock` at a given block, and block
timestamps (`BlockByNumber`).  All functions are deterministic, modelling a
quiescent chain during one harvest. -/
structure Chain where
  contract : Nat
  blockNumber : Nat
  events : Nat → Nat → Except Unit (List LogEvent)
  transmittersAt : Nat → Except Unit (List Nat)
  blockTime : Nat → Except Unit Nat

/-- The index-finding loop of `getObserverIndex`
(ocr2_aggregator_service.go:270-274): the first position of the transmitter
address in the roster. -/
def rosterIndexOf : List Nat → Nat → Option Nat
  | [], _ => none
  | t :: rest, addr =>
    if t = addr then some 0 else (rosterIndexOf rest addr).map (· + 1)

/-- `getObserverIndex` (ocr2_aggregator_service.go:259-277): fetch the
roster at the event block and return the position of the transmitter in it,
truncated to `uint8`; an error when the roster fetch fails or the
transmitter is not in the roster. -/
def getObserverIndex (chain : Chain) (transmitterAddr blockNumber : Nat) :
    Except Unit Nat :=
  match chain.transmittersAt blockNumber with
  | .error e => .error e
  | .ok transmitters =>
    match rosterIndexOf transmitters transmitterAddr with
    | some i => .ok (i % 256)
    | none => .error ()

/-- Construction of one `entities.Transmission` from one event inside the
`GetTransmissions` loop (ocr2_aggregator_service.go:134-176).  Note that the
Go code stores the low byte of the transmitter address in
`TransmitterIndex` (`uint8(event.Transmitter.Big().Uint64() % 256)`) and the
roster position (or 255) in `ObserverIndex`. -/
def mkTransmission (chain : Chain) (ev : LogEvent) (blockTime : Nat) :
    Transmission :=
  let epochAndRound := ev.epochAndRound % U64
  { contractAddress := chain.contract
    configDigest := ev.configDigest
    epoch := (epochAndRound >>> 8) % U32
    round := epochAndRound % 256
    latestAnswer := ev.answer
    latestTimestamp := ev.observationsTimestamp
    transmitterIndex := ev.transmitter % U64 % 256
    transmitterAddress := ev.transmitter
    observerIndex :=
      match getObserverIndex chain ev.transmitter ev.blockNumber with
      | .ok i => i
      | .error _ => 255
    blockNumber := ev.blockNumber
    blockTimestamp := blockTime }

/-- The iteration of `GetTransmissions` over the filtered events
(ocr2_aggregator_service.go:134-176): for each event, fetch its block
timestamp (aborting the whole call on failure) and build the transmission
record. -/
def getTransmissionsLoop (chain : Chain) :
    List LogEvent → Except Unit (List Transmission)
  | [] => .ok []
  | ev :: rest =>
    match chain.blockTime ev.blockNumber with
    | .error e => .error e
    | .ok t =>
      match getTransmissionsLoop chain rest with
      | .error e => .error e
      | .ok txs => .ok (mkTransmission chain ev t :: txs)

/-- `GetTransmissions` (ocr2_aggregator_service.go:98-188): filter the
`NewTransmission` events of the block range and attribute each one. -/
def getTransmissions (chain : Chain) (startBlock endBlock : Nat) :
    Except Unit (List Transmission) :=
  match chain.events startBlock endBlock with
  | .error e => .error e
  | .ok evs => getTransmissionsLoop chain evs

instance {ε α : Type} [DecidableEq ε] [DecidableEq α] :
    DecidableEq (Except ε α) := fun a b =>
  match a, b with
  | .ok x, .ok y =>
    if h : x = y then .isTrue (by rw [h]) else .isFalse (by simp [h])
  | .error x, .error y =>
    if h : x = y then .isTrue (by rw [h]) else .isFalse (by simp [h])
  | .ok _, .error _ => .isFalse (by simp)
  | .error _, .ok _ => .isFalse (by simp)

/-- Spec §8.5 attribution soundness, parameterized by the index field of
the produced record that is claimed to hold the roster position. -/
def attributionSoundAt (field : Transmission → Nat) (chain : Chain)
    (s e : Nat) : Prop :=
  ∀ txs, getTransmissions chain s e = .ok txs →
    ∀ tx ∈ txs, field tx ≠ 255 →
      ∀ roster, chain.transmittersAt tx.blockNumber = .ok roster →
        roster[field tx]? = some tx.transmitterAddress

/-- Event used in the C1 scenario: transmitter address 3, epochAndRound
257 (epoch 1, subround 1), emitted at block 5. -/
def c1Event : LogEvent :=
  { epochAndRound := 257, transmitter := 3, answer := 0
    observationsTimestamp := 90, configDigest := 7, blockNumber := 5 }

/-- Chain for the C1 scenario: one event at block 5; the roster visible at
every block is `[3]`, so the transmitter sits at roster position 0 while
the low byte of its address is 3. -/
def c1Chain : Chain :=
  { contract := 1
    blockNumber := 10
    events := fun s e => .ok (if s ≤ 5 && 5 ≤ e then [c1Event] else [])
    transmittersAt := fun _ => .ok [3]
    blockTime := fun _ => .ok 100 }

/-- The transmission record `GetTransmissions` builds from `c1Event`. -/
def c1Tx : Transmission :=
  { contractAddress := 1, configDigest := 7, epoch := 1, round := 1
    latestAnswer := 0, latestTimestamp := 90, transmitterIndex := 3
    transmitterAddress := 3, observerIndex := 0, blockNumber := 5
    blockTimestamp := 100 }

/-- The round-range computation of `checkJobStatus`
(watch_transmitters_usecase.go:169-180): `latestRound` is the `uint32`
latest round id of the aggregator, `roundsToCheck` the validated `int`
parameter.  In the `else` branch `roundsToCheck ≤ latestRound`, so the
`uint32` subtraction cannot wrap and `Nat` subtraction models it exactly;
the `startRound < 1` clamp is kept as in the source. -/
def computeStartRound (latestRound roundsToCheck : Nat) : Nat :=
  if roundsToCheck > latestRound then 1
  else
    let s := latestRound - roundsToCheck + 1
    if s < 1 then 1 else s

/-- `validateParams` of the watch use case
(watch_transmitters_usecase.go:113-137): names of the fields that fail
validation, in source order. -/
def validateWatchParams (transmitterAddress : Nat) (roundsToCheck : Int)
    (daysToIgnore : Int) : List String :=
  (if transmitterAddress = 0 then ["transmitter_address"] else []) ++
  (if roundsToCheck ≤ 0 then ["rounds_to_check"] else []) ++
  (if roundsToCheck > 100 then ["rounds_to_check"] else []) ++
  (if daysToIgnore < 0 then ["days_to_ignore"] else [])

/-- Wrapping `uint32` subtraction `a - b` (operands assumed `< U32`). -/
def sub32 (a b : Nat) : Nat := (a + U32 - b) % U32

/-- Parameters of the fetch use case (`FetchTransmissionsParams`). -/
structure FetchParams where
  contractAddress : Nat
  startRound : Nat
  endRound : Nat
  deriving DecidableEq, Repr

/-- `validateParams` of the fetch use case
(fetch_transmissions_usecase.go:78-101): the names of the fields that fail
validation, in source order.  `params.EndRound - params.StartRound` is a
`uint32` subtraction, so it wraps when `StartRound > EndRound`. -/
def validateFetchParams (p : FetchParams) : List String :=
  (if p.contractAddress = 0 then ["contract_address"] else []) ++
  (if p.startRound > p.endRound then ["rounds"] else []) ++
  (if sub32 p.endRound p.startRound > 10000 then ["rounds"] else [])

/-- The validation-related control flow of the fetch use case `Execute`
(fetch_transmissions_usecase.go:36-75): when validation reports any field
error the call returns the validation error immediately; otherwise the
transmission fetcher is invoked exactly once and its result returned.  The
fetcher is abstract here (`fetchResult`); the second component counts
invocations of `transmissionFetcher.FetchByRounds`. -/
def executeFetch (fetchResult : Except Unit TransmissionResult)
    (p : FetchParams) :
    Except (List String) (Except Unit TransmissionResult) × Nat :=
  if validateFetchParams p ≠ [] then (.error (validateFetchParams p), 0)
  else (.ok fetchResult, 1)

/-- `maxConcurrency` (transmission_fetcher.go:18). -/
def maxConcurrency : Nat := 30

/-- `defaultBlockInterval` (transmission_fetcher.go:19): most RPC
providers limit log queries to 5000 blocks. -/
def defaultBlockInterval : Nat := 5000

/-- The chunk-emitting loop shared by the naive `splitBlockRange`
(transmission_fetcher.go:233-243) and `splitBlockRangeOptimized`
(ocr2_aggregator_service.go:780-791), with wrapping `uint64` arithmetic:
`start` advances by `chunkSize` modulo `2^64` and the loop runs while
`start ≤ endBlock`; the chunk end is `start + chunkSize - 1` (wrapping),
clamped down to `endBlock`.  The result is `none` when the Go loop does
not terminate within the given fuel. -/
def splitLoopGo (endBlock chunkSize : Nat) :
    Nat → Nat → Option (List BlockRange)
  | 0, _ => none
  | fuel + 1, start =>
    if start ≤ endBlock then
      let e0 := sub64 ((start + chunkSize) % U64) 1
      let e := if e0 > endBlock then endBlock else e0
      match splitLoopGo endBlock chunkSize fuel ((start + chunkSize) % U64) with
      | none => none
      | some rest => some (⟨start, e⟩ :: rest)
    else
      some []

/-- Ceiling division, modelling `int(math.Ceil(float64 a / float64 b))`
for `b > 0`.  The Go code computes the quotient in `float64`; for block
counts below `2^53` the float computation is exact, and it is modelled
here as the exact ceiling. -/
def ceilDiv (a b : Nat) : Nat := (a + b - 1) / b

/-- The chunk-size selection of `splitBlockRangeOptimized`
(ocr2_aggregator_service.go:762-777): prefer `defaultBlockInterval`; when
that needs more chunks than `maxConcurrency`, raise the size to
`⌈total / maxConcurrency⌉`; finally clamp to `defaultBlockInterval`.
`totalBlocks` is the `uint64` expression `endBlock - startBlock + 1`. -/
def optimizedChunkSize (startBlock endBlock : Nat) : Nat :=
  let totalBlocks := (sub64 endBlock startBlock + 1) % U64
  let optimalChunkSize := defaultBlockInterval
  let optimalChunks := ceilDiv totalBlocks optimalChunkSize
  let size1 :=
    if optimalChunks > maxConcurrency then ceilDiv totalBlocks maxConcurrency
    else optimalChunkSize
  if size1 > defaultBlockInterval then defaultBlockInterval else size1

/-- `splitBlockRangeOptimized` (ocr2_aggregator_service.go:759-793).
The fuel `endBlock + 2` is enough whenever the loop terminates at all:
absent wrap-around each iteration advances `start` by at least 1 while
`start ≤ endBlock`. -/
def splitBlockRangeOptimized (startBlock endBlock : Nat) :
    Option (List BlockRange) :=
  splitLoopGo endBlock (optimizedChunkSize startBlock endBlock)
    (endBlock + 2) startBlock

/-- The chunk-size selection of the naive `splitBlockRange`
(transmission_fetcher.go:217-231): when the total is below
`maxConcurrency * defaultBlockInterval` blocks, use the integer division
`totalBlocks / maxConcurrency` clamped up to 1. -/
def naiveChunkSize (startBlock endBlock : Nat) : Nat :=
  let totalBlocks := (sub64 endBlock startBlock + 1) % U64
  let chunkSize := defaultBlockInterval
  if totalBlocks < maxConcurrency * chunkSize then
    let cs := totalBlocks / maxConcurrency
    if cs < 1 then 1 else cs
  else chunkSize

/-- The naive `splitBlockRange` (transmission_fetcher.go:216-246). -/
def splitBlockRange (startBlock endBlock : Nat) : Option (List BlockRange) :=
  splitLoopGo endBlock (naiveChunkSize startBlock endBlock)
    (endBlock + 2) startBlock

/-- The chunk list the split loop produces when no `uint64` wrap-around
occurs; structural version used to reason about the loop. -/
def chunksFrom (chunkSize startBlock endBlock : Nat) : List BlockRange :=
  if startBlock ≤ endBlock then
    ⟨startBlock, min (startBlock + chunkSize - 1) endBlock⟩ ::
      chunksFrom chunkSize (startBlock + max chunkSize 1) endBlock
  else []
termination_by endBlock + 1 - startBlock
decreasing_by
  have := Nat.le_max_right chunkSize 1
  omega

/-- Well-formedness of a chunk list for the inclusive block range
`[s, e]` with per-chunk size bound `bound`: non-empty, starting at `s`,
contiguous (hence non-overlapping), every chunk a valid inclusive
sub-range of `[s, e]` spanning at most `bound` blocks, and the chunks
exactly covering `[s, e]`. -/
def ChunksWellFormed (s e bound : Nat) (cs : List BlockRange) : Prop :=
  cs ≠ [] ∧
  (∀ c, cs.head? = some c → c.startBlock = s) ∧
  List.Chain' (fun a b => b.startBlock = a.endBlock + 1) cs ∧
  (∀ c ∈ cs, s ≤ c.startBlock ∧ c.startBlock ≤ c.endBlock ∧
    c.endBlock ≤ e ∧ c.endBlock + 1 - c.startBlock ≤ bound) ∧
  (∀ b, (s ≤ b ∧ b ≤ e) ↔ ∃ c ∈ cs, c.startBlock ≤ b ∧ b ≤ c.endBlock)

/-- Insertion of an element into a list, placing it before the first
element `b` with `less a b`; building block of `sortSlice`. -/
def insertSorted {α : Type} (less : α → α → Bool) (a : α) : List α → List α
  | [] => [a]
  | b :: l => if less a b then a :: b :: l else b :: insertSorted less a l

/-- Model of Go `sort.Slice` with a strict `less` comparator: an insertion
sort.  Go guarantees only a permutation that is non-decreasing with
respect to the comparator, which this realizes. -/
def sortSlice {α : Type} (less : α → α → Bool) : List α → List α
  | [] => []
  | a :: l => insertSorted less a (sortSlice less l)

/-- The comparator of the `sort.Slice` call in the optimized
`FetchByBlocks` (ocr2_aggregator_service.go:615-617). -/
def blockLess (a b : Transmission) : Bool := a.blockNumber < b.blockNumber

/-- Whether an RPC result is a success. -/
def isOkE {ε α : Type} : Except ε α → Bool
  | .ok _ => true
  | .error _ => false

/-- The payload of a successful chunk result (`.ok` case). -/
def okList : Except Unit (List Transmission) → List Transmission
  | .ok l => l
  | .error _ => []

/-- The per-chunk `GetTransmissions` calls issued by the goroutines of
`fetchTransmissionsInRange` (both fetchers), indexed in chunk issue
order. -/
def chunkResults (chain : Chain) (chunks : List BlockRange) :
    List (Except Unit (List Transmission)) :=
  chunks.map (fun c => getTransmissions chain c.startBlock c.endBlock)

/-- The merge of the naive fetcher (transmission_fetcher.go:207-213): the
chunk results are concatenated in the order they are received from
`resultsChan`, i.e. in goroutine completion order `perm`. -/
def mergeNaive (results : List (Except Unit (List Transmission)))
    (perm : List Nat) : List Transmission :=
  (perm.map (fun i => okList (results.getD i (.ok [])))).flatten

/-- The merge of the optimized fetcher
(ocr2_aggregator_service.go:735-749): each chunk result carries its
originating chunk index; the collected results (received in completion
order `perm`) are re-sorted by chunk index with `sort.Slice` and then
concatenated. -/
def mergeOptimized (results : List (Except Unit (List Transmission)))
    (perm : List Nat) : List Transmission :=
  let collected := perm.map (fun i => (i, okList (results.getD i (.ok []))))
  ((sortSlice (fun a b => a.1 < b.1) collected).map Prod.snd).flatten

/-- The naive `fetchTransmissionsInRange` (transmission_fetcher.go:
149-214): split the range, run one `GetTransmissions` per chunk under the
semaphore, fail if any chunk task reported an error (the Go code drains
`errorsChan` before reading results), and otherwise concatenate the chunk
results in completion order `perm`.  `none` models non-termination of the
planner loop. -/
def fetchTransmissionsInRange (chain : Chain) (perm : List Nat)
    (startBlock endBlock : Nat) : Option (Except Unit (List Transmission)) :=
  match splitBlockRange startBlock endBlock with
  | none => none
  | some chunks =>
    let results := chunkResults chain chunks
    if results.any (fun r => !(isOkE r)) then some (.error ())
    else some (.ok (mergeNaive results perm))

/-- The optimized `fetchTransmissionsInRange`
(ocr2_aggregator_service.go:660-756): as the naive one, but each result
carries its chunk index and the merge re-sorts by chunk index.  The
`fetchTransmissionsInRangeWithRetry` wrapper (lines 562-596) retries up
to 3 times; against the deterministic chain oracle every attempt returns
the same value, so the wrapper collapses to a single attempt. -/
def fetchTransmissionsInRangeOptimized (chain : Chain) (perm : List Nat)
    (startBlock endBlock : Nat) : Option (Except Unit (List Transmission)) :=
  match splitBlockRangeOptimized startBlock endBlock with
  | none => none
  | some chunks =>
    let results := chunkResults chain chunks
    if results.any (fun r => !(isOkE r)) then some (.error ())
    else some (.ok (mergeOptimized results perm))

/-- The error kinds surfaced by the fetchers (`domain/errors`):
`ErrInvalidInput` for malformed ranges, `rpc` for failures propagated
from the chain. -/
inductive FetchError
  | invalidInput
  | rpc
  deriving DecidableEq, Repr

/-- The synthesized round id `tx.Epoch<<8 | uint32(tx.Round)` computed in
`uint32` arithmetic (transmission_fetcher.go:78, 111-112 and
ocr2_aggregator_service.go:378, 622-623).  `epoch` is a `uint32` field
and `round` a `uint8` field, hence the masks. -/
def roundID32 (t : Transmission) : Nat :=
  ((t.epoch <<< 8) % U32) ||| (t.round % 256)

/-- The derived round range of `FetchByBlocks` (both fetchers): zero when
no transmission was found, otherwise the round ids of the first and last
records. -/
def resultRounds (txs : List Transmission) : Nat × Nat :=
  match txs.head?, txs.getLast? with
  | some t0, some t1 => (roundID32 t0, roundID32 t1)
  | _, _ => (0, 0)

/-- The round filter of `FetchByRounds` (both fetchers): keep the
transmissions whose synthesized round id lies in `[startRound, endRound]`. -/
def filterRounds (startRound endRound : Nat) (txs : List Transmission) :
    List Transmission :=
  txs.filter (fun t =>
    decide (startRound ≤ roundID32 t) && decide (roundID32 t ≤ endRound))

/-- The naive `FetchByBlocks` (transmission_fetcher.go:93-121): validate
the range, harvest, and derive the round range from the (unsorted!)
merged list. -/
def fetchByBlocks (chain : Chain) (perm : List Nat)
    (startBlock endBlock : Nat) :
    Option (Except FetchError TransmissionResult) :=
  if startBlock > endBlock then some (.error .invalidInput)
  else
    match fetchTransmissionsInRange chain perm startBlock endBlock with
    | none => none
    | some (.error _) => some (.error .rpc)
    | some (.ok txs) =>
      some (.ok
        { contractAddress := chain.contract
          startRound := (resultRounds txs).1
          endRound := (resultRounds txs).2
          transmissions := txs })

/-- The optimized `FetchByBlocks` (ocr2_aggregator_service.go:599-632):
validate the range, harvest with retry, sort the merged list by block
number with `sort.Slice`, and derive the round range from the sorted
list. -/
def fetchByBlocksOptimized (chain : Chain) (perm : List Nat)
    (startBlock endBlock : Nat) :
    Option (Except FetchError TransmissionResult) :=
  if startBlock > endBlock then some (.error .invalidInput)
  else
    match fetchTransmissionsInRangeOptimized chain perm startBlock endBlock with
    | none => none
    | some (.error _) => some (.error .rpc)
    | some (.ok txs0) =>
      let txs := sortSlice blockLess txs0
      some (.ok
        { contractAddress := chain.contract
          startRound := (resultRounds txs).1
          endRound := (resultRounds txs).2
          transmissions := txs })

/-- The naive `FetchByRounds` (transmission_fetcher.go:52-90): validate
the round range, harvest every block from genesis to the current head,
and filter by the synthesized round id. -/
def fetchByRounds (chain : Chain) (perm : List Nat)
    (startRound endRound : Nat) :
    Option (Except FetchError TransmissionResult) :=
  if startRound > endRound then some (.error .invalidInput)
  else
    match fetchTransmissionsInRange chain perm 0 chain.blockNumber with
    | none => none
    | some (.error _) => some (.error .rpc)
    | some (.ok txs) =>
      some (.ok
        { contractAddress := chain.contract
          startRound := startRound
          endRound := endRound
          transmissions := filterRounds startRound endRound txs })

/-- `cacheExpiration` (ocr2_aggregator_service.go:298): 5 minutes,
modelled in seconds. -/
def cacheExpiration : Nat := 300

/-- One `cacheEntry` (ocr2_aggregator_service.go:307-310). -/
structure CacheEntry where
  blockNumber : Nat
  timestamp : Nat
  deriving DecidableEq, Repr

/-- The `roundBlockCache` map (ocr2_aggregator_service.go:301-310),
modelled as an association list; the Go map key is the string
`"contract-round"`, modelled as the pair. -/
abbrev RoundCache : Type := List ((Nat × Nat) × CacheEntry)

/-- `getFromCache` (ocr2_aggregator_service.go:796-811): 0 on a missing
or expired entry (entries older than `cacheExpiration`), the cached
block number otherwise. -/
def getFromCache (cache : RoundCache) (key : Nat × Nat) (now : Nat) : Nat :=
  match cache.lookup key with
  | none => 0
  | some entry =>
    if now - entry.timestamp > cacheExpiration then 0 else entry.blockNumber

/-- `putToCache` (ocr2_aggregator_service.go:813-826): store the entry
under the key (replacing any previous one, as a Go map assignment does),
then, when more than 1000 entries are held, sweep out the expired ones
(`cleanupCache`). -/
def putToCache (cache : RoundCache) (key : Nat × Nat)
    (blockNumber now : Nat) : RoundCache :=
  let c : RoundCache :=
    (key, ⟨blockNumber, now⟩) :: cache.filter (fun kv => !(kv.1 == key))
  if c.length > 1000 then
    c.filter (fun kv => !(now - kv.2.timestamp > cacheExpiration))
  else c

/-- The `minRound` fold of the search loop
(ocr2_aggregator_service.go:466-476), starting at `math.MaxUint32`. -/
def minRoundOf (txs : List Transmission) : Nat :=
  txs.foldl (fun m t => if roundID32 t < m then roundID32 t else m) (U32 - 1)

/-- The `maxRound` fold of the search loop
(ocr2_aggregator_service.go:467-476). -/
def maxRoundOf (txs : List Transmission) : Nat :=
  txs.foldl (fun m t => if roundID32 t > m then roundID32 t else m) 0

/-- `estimateBlockForRound` (ocr2_aggregator_service.go:516-559): sample
the last ≤ 10000 blocks, interpolate blocks-per-round between the first
and last sampled transmission, project to the target round and clamp to
`[0, currentBlock]`.  The `float64` interpolation is modelled as the
exact integer computation with the `int64` conversion truncating toward
zero (`Int.tdiv`).  Issues exactly one `GetTransmissions` RPC. -/
def estimateBlockForRound (chain : Chain) (targetRound currentBlock : Nat) :
    Nat :=
  let sampleSize := if currentBlock < 10000 then currentBlock else 10000
  let sampleStart := currentBlock - sampleSize
  match getTransmissions chain sampleStart currentBlock with
  | .error _ => 0
  | .ok txs =>
    if txs.length < 2 then 0
    else
      match txs.head?, txs.getLast? with
      | some firstTx, some lastTx =>
        let firstRound := roundID32 firstTx
        let lastRound := roundID32 lastTx
        if lastRound ≤ firstRound then 0
        else
          let roundDiff : Int := (targetRound : Int) - (lastRound : Int)
          let estimatedBlock : Int := (lastTx.blockNumber : Int) +
            Int.tdiv (((lastTx.blockNumber : Int) - (firstTx.blockNumber : Int))
                * roundDiff)
              ((lastRound : Int) - (firstRound : Int))
          if estimatedBlock < 0 then 0
          else if (currentBlock : Int) < estimatedBlock then currentBlock
          else estimatedBlock.toNat
      | _, _ => 0

/-- Outcome of the binary-search loop of `findBlockForRound`, together
with the number of `GetTransmissions` RPCs the loop issued: an exact
round match at a block (the only outcome the caller caches), normal loop
exit carrying the best straddling `resultBlock` (0 when never set), a
fatal RPC failure, or fuel exhaustion (the Go loop still running). -/
inductive SearchOutcome
  | exact (blockNumber rpc : Nat)
  | finished (resultBlock rpc : Nat)
  | rpcFail (rpc : Nat)
  | fuelOut
  deriving DecidableEq, Repr

/-- The binary-search loop of `findBlockForRound`
(ocr2_aggregator_service.go:435-502), with wrapping `uint64` index
arithmetic and explicit fuel.  Each iteration probes a window of up to
1000 blocks above `mid` (clamped to `currentBlock`); on RPC failure a
100-block window is retried once before failing; when the target round
lies within the observed `[minRound, maxRound]` the first event with the
exact round id returns its block; otherwise the bounds move and the best
straddling block is tracked in `resultBlock`.  The post-fetch logic is
spelled out once per fetch arm, matching the single Go loop body. -/
def searchLoop (chain : Chain) (targetRound : Nat) (isStartRound : Bool)
    (currentBlock : Nat) :
    Nat → Nat → Nat → Nat → Nat → SearchOutcome
  | 0, _, _, _, _ => .fuelOut
  | fuel + 1, left, right, resultBlock, rpc =>
    if left ≤ right then
      let mid := ((left + right) % U64) / 2
      let searchStart := mid
      let searchEnd0 := (mid + 1000) % U64
      let searchEnd1 :=
        if searchEnd0 > currentBlock then currentBlock else searchEnd0
      match getTransmissions chain searchStart searchEnd1 with
      | .error _ =>
        let searchEnd2 := (searchStart + 100) % U64
        match getTransmissions chain searchStart searchEnd2 with
        | .error _ => .rpcFail (rpc + 2)
        | .ok txs =>
          if txs.isEmpty then
            if isStartRound then
              searchLoop chain targetRound isStartRound currentBlock
                fuel ((mid + 1) % U64) right resultBlock (rpc + 2)
            else
              searchLoop chain targetRound isStartRound currentBlock
                fuel left (sub64 mid 1) resultBlock (rpc + 2)
          else
            let minRound := minRoundOf txs
            let maxRound := maxRoundOf txs
            match (if targetRound ≥ minRound && targetRound ≤ maxRound
                then txs.find? (fun t => roundID32 t == targetRound)
                else none) with
            | some t => .exact t.blockNumber (rpc + 2)
            | none =>
              if targetRound < minRound then
                searchLoop chain targetRound isStartRound currentBlock
                  fuel left (sub64 searchStart 1) resultBlock (rpc + 2)
              else
                let resultBlock2 :=
                  if isStartRound && decide (maxRound < targetRound) then
                    searchEnd2
                  else if !isStartRound && decide (minRound > targetRound) then
                    searchStart
                  else resultBlock
                searchLoop chain targetRound isStartRound currentBlock
                  fuel ((searchEnd2 + 1) % U64) right resultBlock2 (rpc + 2)
      | .ok txs =>
        if txs.isEmpty then
          if isStartRound then
            searchLoop chain targetRound isStartRound currentBlock
              fuel ((mid + 1) % U64) right resultBlock (rpc + 1)
          else
            searchLoop chain targetRound isStartRound currentBlock
              fuel left (sub64 mid 1) resultBlock (rpc + 1)
        else
          let minRound := minRoundOf txs
          let maxRound := maxRoundOf txs
          match (if targetRound ≥ minRound && targetRound ≤ maxRound
              then txs.find? (fun t => roundID32 t == targetRound)
              else none) with
          | some t => .exact t.blockNumber (rpc + 1)
          | none =>
            if targetRound < minRound then
              searchLoop chain targetRound isStartRound currentBlock
                fuel left (sub64 searchStart 1) resultBlock (rpc + 1)
            else
              let resultBlock2 :=
                if isStartRound && decide (maxRound < targetRound) then
                  searchEnd1
                else if !isStartRound && decide (minRound > targetRound) then
                  searchStart
                else resultBlock
              searchLoop chain targetRound isStartRound currentBlock
                fuel ((searchEnd1 + 1) % U64) right resultBlock2 (rpc + 1)
    else
      .finished resultBlock rpc

/-- `findBlockForRound` (ocr2_aggregator_service.go:393-513).  Returns
the located block (or an error), the updated cache, and the number of
RPCs issued (`GetBlockNumber` + the estimate sample query + the loop
queries).  A fresh cache hit short-circuits with zero RPCs; only the
exact-match path writes the cache — the closest-block fallback
(lines 504-510) does not.  The overall result is `none` on fuel
exhaustion of the loop.  `GetBlockNumber` is modelled as infallible
(`chain.blockNumber`). -/
def findBlockForRound (chain : Chain) (fuel : Nat) (cache : RoundCache)
    (now : Nat) (targetRound : Nat) (isStartRound : Bool) :
    Option (Except Unit Nat) × RoundCache × Nat :=
  let key := (chain.contract, targetRound)
  let cached := getFromCache cache key now
  if cached > 0 then (some (.ok cached), cache, 0)
  else
    let currentBlock := chain.blockNumber
    let sampleBlock := estimateBlockForRound chain targetRound currentBlock
    let left :=
      if sampleBlock > 0 && decide (sampleBlock > 100000) then
        sampleBlock - 100000
      else 0
    let right :=
      if sampleBlock > 0 && decide ((sampleBlock + 100000) % U64 < currentBlock)
      then (sampleBlock + 100000) % U64
      else currentBlock
    match searchLoop chain targetRound isStartRound currentBlock
        fuel left right 0 0 with
    | .fuelOut => (none, cache, 0)
    | .rpcFail n => (some (.error ()), cache, 2 + n)
    | .exact b n => (some (.ok b), putToCache cache key b now, 2 + n)
    | .finished rb n =>
      if rb > 0 then (some (.ok rb), cache, 2 + n)
      else (some (.error ()), cache, 2 + n)

/-- The optimized `FetchByRounds` (ocr2_aggregator_service.go:339-390):
validate the round range, locate the two endpoint blocks with the round
locator (threading the cache), harvest the block window, and filter by
the synthesized round id. -/
def fetchByRoundsOptimized (chain : Chain) (fuel : Nat) (cache : RoundCache)
    (now : Nat) (perm : List Nat) (startRound endRound : Nat) :
    Option (Except FetchError TransmissionResult) × RoundCache :=
  if startRound > endRound then (some (.error .invalidInput), cache)
  else
    match findBlockForRound chain fuel cache now startRound true with
    | (none, c1, _) => (none, c1)
    | (some (.error _), c1, _) => (some (.error .rpc), c1)
    | (some (.ok startBlock), c1, _) =>
      match findBlockForRound chain fuel c1 now endRound false with
      | (none, c2, _) => (none, c2)
      | (some (.error _), c2, _) => (some (.error .rpc), c2)
      | (some (.ok endBlock), c2, _) =>
        match fetchTransmissionsInRangeOptimized chain perm
            startBlock endBlock with
        | none => (none, c2)
        | some (.error _) => (some (.error .rpc), c2)
        | some (.ok txs) =>
          (some (.ok
            { contractAddress := chain.contract
              startRound := startRound
              endRound := endRound
              transmissions := filterRounds startRound endRound txs }), c2)

/-- Phase of one chunk goroutine of `fetchTransmissionsInRange`: before
its semaphore send, inside its RPC while holding a semaphore slot, or
finished with the slot released. -/
inductive TaskPhase
  | idle
  | inflight
  | done
  deriving DecidableEq, Repr

/-- One in-progress `fetchTransmissionsInRange` call: the capacity of its
semaphore — the buffered channel `make(chan struct{}, f.concurrency)`
created per call (transmission_fetcher.go:162,
ocr2_aggregator_service.go:682) — and the phases of its chunk
goroutines. -/
structure Harvest where
  cap : Nat
  tasks : List TaskPhase
  deriving DecidableEq, Repr

/-- Number of goroutines of a harvest currently holding a semaphore slot,
i.e. executing their `GetTransmissions` RPC. -/
def inflightCount (h : Harvest) : Nat :=
  h.tasks.countP (fun t => t == .inflight)

/-- A scheduler action: goroutine `t` of harvest `h` completes its
semaphore send (possible only while fewer than `cap` slots are held), or
finishes its RPC and releases its slot. -/
inductive SchedAction
  | acquire (h t : Nat)
  | release (h t : Nat)
  deriving DecidableEq, Repr

/-- One scheduler step over the running harvests; `none` when the action
is not enabled (channel send would block, wrong phase, bad index). -/
def schedStep (p : List Harvest) : SchedAction → Option (List Harvest)
  | .acquire hi ti =>
    match p[hi]? with
    | none => none
    | some h =>
      match h.tasks[ti]? with
      | some .idle =>
        if inflightCount h < h.cap then
          some (p.set hi { h with tasks := h.tasks.set ti .inflight })
        else none
      | _ => none
  | .release hi ti =>
    match p[hi]? with
    | none => none
    | some h =>
      match h.tasks[ti]? with
      | some .inflight =>
        some (p.set hi { h with tasks := h.tasks.set ti .done })
      | _ => none

/-- Run a scheduler script from a process state. -/
def schedRun (p : List Harvest) : List SchedAction → Option (List Harvest)
  | [] => some p
  | a :: rest =>
    match schedStep p a with
    | none => none
    | some p2 => schedRun p2 rest

/-- A fresh harvest call with `n` chunk goroutines, none started. -/
def initHarvest (cap n : Nat) : Harvest :=
  { cap := cap, tasks := List.replicate n .idle }

/-- Total number of in-flight RPCs across all harvests of the process. -/
def totalInflight (p : List Harvest) : Nat :=
  (p.map inflightCount).sum

/-- The scheduler script of the C4 scenario: the 30 chunk goroutines of a
first harvest acquire their (own) semaphore, then one goroutine of a
second, concurrently running harvest acquires its own fresh semaphore. -/
def c4Script : List SchedAction :=
  ((List.range 30).map (fun i => SchedAction.acquire 0 i)) ++
    [SchedAction.acquire 1 0]

/-- Two harvests running in one process, with the source capacity
`maxConcurrency = 30`: one with 30 chunks, one with a single chunk. -/
def c4Init : List Harvest :=
  [initHarvest maxConcurrency 30, initHarvest maxConcurrency 1]

/-- Event at block 0 of the C3 scenario (epoch 1, subround 1). -/
def c3Event0 : LogEvent :=
  { epochAndRound := 257, transmitter := 3, answer := 0
    observationsTimestamp := 10, configDigest := 7, blockNumber := 0 }

/-- Event at block 1 of the C3 scenario (epoch 1, subround 2). -/
def c3Event1 : LogEvent :=
  { epochAndRound := 258, transmitter := 3, answer := 0
    observationsTimestamp := 11, configDigest := 7, blockNumber := 1 }

/-- Chain for the C3 scenario: one event at block 0 and one at block 1,
so the naive split of `[0, 1]` yields the two chunks `[0,0]` and `[1,1]`. -/
def c3Chain : Chain :=
  { contract := 1
    blockNumber := 1
    events := fun s e => .ok
      ((if s ≤ 0 && 0 ≤ e then [c3Event0] else []) ++
        (if s ≤ 1 && 1 ≤ e then [c3Event1] else []))
    transmittersAt := fun _ => .ok [3]
    blockTime := fun _ => .ok 100 }

/-- The transmission record built from `c3Event0`. -/
def c3Tx0 : Transmission :=
  { contractAddress := 1, configDigest := 7, epoch := 1, round := 1
    latestAnswer := 0, latestTimestamp := 10, transmitterIndex := 3
    transmitterAddress := 3, observerIndex := 0, blockNumber := 0
    blockTimestamp := 100 }

/-- The transmission record built from `c3Event1`. -/
def c3Tx1 : Transmission :=
  { contractAddress := 1, configDigest := 7, epoch := 1, round := 2
    latestAnswer := 0, latestTimestamp := 11, transmitterIndex := 3
    transmitterAddress := 3, observerIndex := 0, blockNumber := 1
    blockTimestamp := 100 }

/-- Event of the demo scenario: round id 7 (epoch 0, subround 7) at
block 6. -/
def demoEvent : LogEvent :=
  { epochAndRound := 7, transmitter := 3, answer := 0
    observationsTimestamp := 50, configDigest := 9, blockNumber := 6 }

/-- Chain of the demo scenario: head block 10, a single transmission
with round id 7 at block 6, roster `[3]` at every block. -/
def demoChain : Chain :=
  { contract := 1
    blockNumber := 10
    events := fun s e => .ok (if s ≤ 6 && 6 ≤ e then [demoEvent] else [])
    transmittersAt := fun _ => .ok [3]
    blockTime := fun _ => .ok 100 }

/-- The transmission record built from `demoEvent`. -/
def demoTx : Transmission :=
  { contractAddress := 1, configDigest := 9, epoch := 0, round := 7
    latestAnswer := 0, latestTimestamp := 50, transmitterIndex := 3
    transmitterAddress := 3, observerIndex := 0, blockNumber := 6
    blockTimestamp := 100 }

/-- A chain with no events at all, for the empty-range scenario. -/
def emptyChain : Chain :=
  { contract := 2
    blockNumber := 50
    events := fun _ _ => .ok []
    transmittersAt := fun _ => .ok []
    blockTime := fun _ => .ok 0 }

/-! ## Theorems -/

theorem rosterIndexOf_getElem :
    ∀ (l : List Nat) (a i : Nat), rosterIndexOf l a = some i → l[i]? = some a
  | [], a, i, h => by simp [rosterIndexOf] at h
  | t :: rest, a, i, h => by
    by_cases ht : t = a
    · simp only [rosterIndexOf, if_pos ht, Option.some.injEq] at h
      subst ht
      cases h
      simp
    · simp only [rosterIndexOf, if_neg ht] at h
      cases hr : rosterIndexOf rest a with
      | none => rw [hr] at h; simp at h
      | some j =>
        rw [hr] at h
        have hji : i = j + 1 := by simpa using h.symm
        subst hji
        simpa using rosterIndexOf_getElem rest a j hr

theorem mem_getTransmissionsLoop (chain : Chain) :
    ∀ (evs : List LogEvent) (txs : List Transmission) (tx : Transmission),
      getTransmissionsLoop chain evs = .ok txs → tx ∈ txs →
      ∃ ev t, ev ∈ evs ∧ tx = mkTransmission chain ev t
  | [], txs, tx, h, hmem => by
    simp only [getTransmissionsLoop, Except.ok.injEq] at h
    subst h
    simp at hmem
  | ev :: rest, txs, tx, h, hmem => by
    simp only [getTransmissionsLoop] at h
    cases hb : chain.blockTime ev.blockNumber with
    | error e => rw [hb] at h; exact absurd h (by simp)
    | ok t =>
      rw [hb] at h
      cases hr : getTransmissionsLoop chain rest with
      | error e => rw [hr] at h; exact absurd h (by simp)
      | ok txs2 =>
        rw [hr] at h
        simp only [Except.ok.injEq] at h
        subst h
        rcases List.mem_cons.mp hmem with h1 | h2
        · exact ⟨ev, t, List.mem_cons_self ev rest, h1⟩
        · obtain ⟨ev2, t2, hmem2, heq⟩ :=
            mem_getTransmissionsLoop chain rest txs2 tx hr h2
          exact ⟨ev2, t2, List.mem_cons_of_mem ev hmem2, heq⟩

/-- **C1, counterexample.**  The claim as stated — with the record field
named `TransmitterIndex` — is false: `GetTransmissions` stores the low
byte of the transmitter address in `TransmitterIndex`
(ocr2_aggregator_service.go:168), not the roster position.  On `c1Chain`
the produced record has `transmitterIndex = 3 ≠ 255`, yet the active
roster `[3]` has no position 3. -/
theorem C1_counterexample :
    ¬ attributionSoundAt (fun tx => tx.transmitterIndex) c1Chain 0 10 := by
  intro h
  have h2 := h [c1Tx] (by decide) c1Tx (by decide) (by decide) [3] (by decide)
  exact absurd h2 (by decide)

/-- **C1 (amended).**  For every `Transmission` returned by
`GetTransmissions` whose `ObserverIndex` is not 255, the roster that
`GetConfigFromBlock` reports at that transmission's block (when its length
is at most 255, so the `uint8` truncation in `getObserverIndex` is lossless)
satisfies `roster[observerIndex] = transmitterAddress`: the roster position
of the transmitter is stored in the `ObserverIndex` field, not in
`TransmitterIndex`, which holds the low byte of the transmitter address. -/
theorem C1_observer_attribution (chain : Chain) (s e : Nat)
    (txs : List Transmission) (tx : Transmission) (roster : List Nat)
    (hok : getTransmissions chain s e = .ok txs) (hmem : tx ∈ txs)
    (hroster : chain.transmittersAt tx.blockNumber = .ok roster)
    (hlen : roster.length ≤ 255) (hidx : tx.observerIndex ≠ 255) :
    roster[tx.observerIndex]? = some tx.transmitterAddress := by
  unfold getTransmissions at hok
  cases hev : chain.events s e with
  | error e2 => rw [hev] at hok; exact absurd hok (by simp)
  | ok evs =>
    rw [hev] at hok
    obtain ⟨ev, t, -, rfl⟩ := mem_getTransmissionsLoop chain evs txs tx hok hmem
    simp only [mkTransmission] at hroster hidx ⊢
    cases hobs : getObserverIndex chain ev.transmitter ev.blockNumber with
    | error e2 =>
      rw [hobs] at hidx
      exact absurd rfl hidx
    | ok i =>
      rw [hobs] at hidx
      dsimp only at hidx
      unfold getObserverIndex at hobs
      rw [hroster] at hobs
      dsimp only at hobs
      cases hfind : rosterIndexOf roster ev.transmitter with
      | none => rw [hfind] at hobs; exact absurd hobs (by simp)
      | some j =>
        rw [hfind] at hobs
        simp only [Except.ok.injEq] at hobs
        have hget := rosterIndexOf_getElem roster ev.transmitter j hfind
        have hj : j < roster.length := by
          rcases List.getElem?_eq_some.mp hget with ⟨hlt, -⟩
          exact hlt
        have : j % 256 = j := Nat.mod_eq_of_lt (by omega)
        rw [← hobs, this]
        exact hget

/-- Witness for `C1_observer_attribution` at the concrete C1 scenario. -/
theorem C1_observer_attribution_witness :
    ([3] : List Nat)[c1Tx.observerIndex]? = some c1Tx.transmitterAddress :=
  C1_observer_attribution c1Chain 0 10 [c1Tx] c1Tx [3]
    (by decide) (by decide) (by decide) (by decide) (by decide)

/-- **C9.**  For every latest round id `L ≥ 1` and every `roundsToCheck`
between 1 and 100 (the range enforced by `validateParams`), the start
round computed by `checkJobStatus` satisfies `1 ≤ startRound ≤ L`, equals
1 when `roundsToCheck ≥ L`, and equals `L - roundsToCheck + 1`
otherwise; in particular the `uint32` subtraction never underflows. -/
theorem C9_start_round_bounds (L r : Nat) (hL : 1 ≤ L) (hr1 : 1 ≤ r)
    (hr2 : r ≤ 100) :
    1 ≤ computeStartRound L r ∧ computeStartRound L r ≤ L ∧
    (r ≥ L → computeStartRound L r = 1) ∧
    (r < L → computeStartRound L r = L - r + 1) := by
  unfold computeStartRound
  split
  · omega
  · dsimp only
    split <;> omega

/-- Witness for `C9_start_round_bounds` at `L = 5`, `roundsToCheck = 3`. -/
theorem C9_start_round_bounds_witness :
    1 ≤ computeStartRound 5 3 ∧ computeStartRound 5 3 ≤ 5 ∧
    (3 ≥ 5 → computeStartRound 5 3 = 1) ∧
    (3 < 5 → computeStartRound 5 3 = 5 - 3 + 1) :=
  C9_start_round_bounds 5 3 (by decide) (by decide) (by decide)

theorem sub32_eq_sub (a b : Nat) (hb : b ≤ a) (ha : a < U32) :
    sub32 a b = a - b := by
  unfold sub32
  have h1 : a + U32 - b = (a - b) + U32 := by omega
  rw [h1, Nat.add_mod_right]
  exact Nat.mod_eq_of_lt (by omega)

/-- **C5.**  The fetch use case reports an invalid-range (`rounds` field)
validation failure exactly when `startRound > endRound` or
`endRound - startRound > 10000`, and whenever validation fails the call
returns the validation error having made zero fetcher (hence zero RPC)
calls; the error is returned directly, so it is never retried. -/
theorem C5_invalid_range_validation (p : FetchParams)
    (fr : Except Unit TransmissionResult)
    (hs : p.startRound < U32) (he : p.endRound < U32) :
    ("rounds" ∈ validateFetchParams p ↔
      (p.startRound > p.endRound ∨ p.endRound - p.startRound > 10000)) ∧
    (validateFetchParams p ≠ [] →
      executeFetch fr p = (.error (validateFetchParams p), 0)) := by
  constructor
  · unfold validateFetchParams
    by_cases hgt : p.startRound > p.endRound
    · simp [hgt]
    · have hle : p.startRound ≤ p.endRound := Nat.le_of_not_lt hgt
      rw [sub32_eq_sub p.endRound p.startRound hle he]
      by_cases hspan : p.endRound - p.startRound > 10000 <;>
        simp [hgt, hspan]
  · intro hne
    simp [executeFetch, hne]

/-- Witness for `C5_invalid_range_validation` with
`startRound = 5 > endRound = 3`. -/
theorem C5_invalid_range_validation_witness :
    ("rounds" ∈ validateFetchParams ⟨1, 5, 3⟩ ↔
      ((5 : Nat) > 3 ∨ (3 - 5 : Nat) > 10000)) ∧
    (validateFetchParams ⟨1, 5, 3⟩ ≠ [] →
      executeFetch (.ok ⟨1, 0, 0, []⟩) ⟨1, 5, 3⟩ =
        (.error (validateFetchParams ⟨1, 5, 3⟩), 0)) :=
  C5_invalid_range_validation ⟨1, 5, 3⟩ (.ok ⟨1, 0, 0, []⟩)
    (by decide) (by decide)

theorem sub64_eq_sub (a b : Nat) (hb : b ≤ a) (ha : a < U64) :
    sub64 a b = a - b := by
  unfold sub64
  have h1 : a + U64 - b = (a - b) + U64 := by omega
  rw [h1, Nat.add_mod_right]
  exact Nat.mod_eq_of_lt (by omega)

/-- Absent wrap-around (`endBlock + chunkSize < 2^64`) and with enough
fuel, the Go split loop terminates and produces `chunksFrom`. -/
theorem splitLoopGo_eq_chunksFrom (endBlock chunkSize : Nat)
    (hS : 1 ≤ chunkSize) (hwrap : endBlock + chunkSize < U64) :
    ∀ (fuel start : Nat), endBlock + 2 ≤ fuel + start → 1 ≤ fuel →
      splitLoopGo endBlock chunkSize fuel start =
        some (chunksFrom chunkSize start endBlock)
  | 0, start, hf, hf1 => by omega
  | fuel + 1, start, hf, hf1 => by
    by_cases hle : start ≤ endBlock
    · have hnw : start + chunkSize < U64 := by omega
      have hmod : (start + chunkSize) % U64 = start + chunkSize :=
        Nat.mod_eq_of_lt hnw
      have he0 : sub64 ((start + chunkSize) % U64) 1 =
          start + chunkSize - 1 := by
        rw [hmod]
        exact sub64_eq_sub _ _ (by omega) hnw
      have he0q : sub64 (start + chunkSize) 1 = start + chunkSize - 1 :=
        sub64_eq_sub _ _ (by omega) hnw
      have hrec := splitLoopGo_eq_chunksFrom endBlock chunkSize hS hwrap
        fuel (start + chunkSize) (by omega) (by omega)
      unfold splitLoopGo
      rw [if_pos hle]
      dsimp only
      rw [hmod, he0q, hrec]
      dsimp only
      conv_rhs => rw [chunksFrom]
      rw [if_pos hle, Nat.max_eq_left hS]
      have hE : (if start + chunkSize - 1 > endBlock then endBlock
          else start + chunkSize - 1) =
          min (start + chunkSize - 1) endBlock := by
        split <;> omega
      rw [hE]
    · unfold splitLoopGo
      rw [if_neg hle, chunksFrom, if_neg hle]

/-- At `endBlock = 2^64 - 1` the split loop never exits: the `uint64`
loop variable always satisfies `start ≤ endBlock`, so every fuel bound is
exhausted. -/
theorem splitLoopGo_max_none (chunkSize : Nat) :
    ∀ (fuel start : Nat), start < U64 →
      splitLoopGo (U64 - 1) chunkSize fuel start = none
  | 0, _, _ => rfl
  | fuel + 1, start, hstart => by
    have hU : 0 < U64 := by norm_num [U64]
    unfold splitLoopGo
    rw [if_pos (by omega)]
    rw [splitLoopGo_max_none chunkSize fuel ((start + chunkSize) % U64)
      (Nat.mod_lt _ hU)]

theorem chunksFrom_ne_nil (S s e : Nat) (h : s ≤ e) : chunksFrom S s e ≠ [] := by
  rw [chunksFrom, if_pos h]
  simp

theorem chunksFrom_head (S s e : Nat) (h : s ≤ e) :
    (chunksFrom S s e).head? = some ⟨s, min (s + S - 1) e⟩ := by
  rw [chunksFrom, if_pos h]
  rfl

theorem chunksFrom_mem_bounds (S : Nat) (hS : 1 ≤ S) (s e : Nat) :
    ∀ c ∈ chunksFrom S s e, s ≤ c.startBlock ∧ c.startBlock ≤ c.endBlock ∧
      c.endBlock ≤ e ∧ c.endBlock + 1 - c.startBlock ≤ S := by
  induction s, e using chunksFrom.induct S with
  | case1 s e hle ih =>
    rw [chunksFrom, if_pos hle]
    rw [Nat.max_eq_left hS] at ih ⊢
    intro c hc
    rcases List.mem_cons.mp hc with rfl | hmem
    · refine ⟨le_refl s, ?_, ?_, ?_⟩ <;> simp <;> omega
    · obtain ⟨h1, h2, h3, h4⟩ := ih c hmem
      exact ⟨by omega, h2, h3, h4⟩
  | case2 s e hle =>
    rw [chunksFrom, if_neg hle]
    simp

theorem chunksFrom_chain (S : Nat) (hS : 1 ≤ S) (s e : Nat) :
    List.Chain' (fun a b => b.startBlock = a.endBlock + 1) (chunksFrom S s e) := by
  induction s, e using chunksFrom.induct S with
  | case1 s e hle ih =>
    rw [chunksFrom, if_pos hle]
    rw [Nat.max_eq_left hS] at ih ⊢
    refine List.chain'_cons'.mpr ⟨?_, ih⟩
    intro c hc
    by_cases h2 : s + S ≤ e
    · rw [chunksFrom_head S (s + S) e h2] at hc
      cases hc
      have : min (s + S - 1) e = s + S - 1 :=
        Nat.min_eq_left (by omega)
      simp only [this]
      omega
    · rw [chunksFrom, if_neg h2] at hc
      exact absurd hc (by simp)
  | case2 s e hle =>
    rw [chunksFrom, if_neg hle]
    exact List.chain'_nil

theorem chunksFrom_cover (S : Nat) (hS : 1 ≤ S) (s e b : Nat) :
    s ≤ e → ((s ≤ b ∧ b ≤ e) ↔
      ∃ c ∈ chunksFrom S s e, c.startBlock ≤ b ∧ b ≤ c.endBlock) := by
  induction s, e using chunksFrom.induct S with
  | case1 s e hle ih =>
    intro _
    rw [chunksFrom, if_pos hle]
    rw [Nat.max_eq_left hS] at ih ⊢
    constructor
    · rintro ⟨hsb, hbe⟩
      by_cases hb : b ≤ s + S - 1
      · exact ⟨⟨s, min (s + S - 1) e⟩, List.mem_cons_self _ _,
          hsb, by simp; omega⟩
      · have h2 : s + S ≤ e := by omega
        obtain ⟨c, hc, hcb⟩ := (ih h2).mp ⟨by omega, hbe⟩
        exact ⟨c, List.mem_cons_of_mem _ hc, hcb⟩
    · rintro ⟨c, hc, hcb1, hcb2⟩
      rcases List.mem_cons.mp hc with rfl | hmem
      · simp only at hcb1 hcb2
        constructor
        · exact hcb1
        · have : min (s + S - 1) e ≤ e := Nat.min_le_right _ _
          omega
      · by_cases h2 : s + S ≤ e
        · have := (ih h2).mpr ⟨c, hmem, hcb1, hcb2⟩
          omega
        · rw [chunksFrom, if_neg h2] at hmem
          exact absurd hmem (by simp)
  | case2 s e hle =>
    intro h
    exact absurd h hle

theorem chunksFrom_wellFormed (S s e : Nat) (hS : 1 ≤ S) (hse : s ≤ e) :
    ChunksWellFormed s e S (chunksFrom S s e) := by
  refine ⟨chunksFrom_ne_nil S s e hse, ?_, chunksFrom_chain S hS s e,
    chunksFrom_mem_bounds S hS s e, fun b => chunksFrom_cover S hS s e b hse⟩
  intro c hc
  rw [chunksFrom_head S s e hse] at hc
  cases hc
  rfl

theorem total_eq (s e : Nat) (hse : s ≤ e) (he : e + 1 < U64) :
    (sub64 e s + 1) % U64 = e - s + 1 := by
  rw [sub64_eq_sub e s hse (by omega)]
  exact Nat.mod_eq_of_lt (by omega)

/-- Under `s ≤ e` and no overflow, the optimized chunk size is the
preferred `defaultBlockInterval`, raised to `⌈total / maxConcurrency⌉`
(clamped back to `defaultBlockInterval`) when the preferred size would
need more than `maxConcurrency` chunks. -/
theorem optimizedChunkSize_spec (s e : Nat) (hse : s ≤ e) (he : e + 1 < U64) :
    optimizedChunkSize s e =
      if ceilDiv (e - s + 1) defaultBlockInterval > maxConcurrency
      then min defaultBlockInterval (ceilDiv (e - s + 1) maxConcurrency)
      else defaultBlockInterval := by
  unfold optimizedChunkSize
  rw [total_eq s e hse he]
  dsimp only
  by_cases h : ceilDiv (e - s + 1) defaultBlockInterval > maxConcurrency
  · rw [if_pos h, if_pos h]
    by_cases h2 : ceilDiv (e - s + 1) maxConcurrency > defaultBlockInterval
    · rw [if_pos h2, Nat.min_eq_left (by omega)]
    · rw [if_neg h2, Nat.min_eq_right (by omega)]
  · rw [if_neg h, if_neg h]
    norm_num [defaultBlockInterval]

theorem optimizedChunkSize_bounds (s e : Nat) (hse : s ≤ e) (he : e + 1 < U64) :
    1 ≤ optimizedChunkSize s e ∧
      optimizedChunkSize s e ≤ defaultBlockInterval := by
  rw [optimizedChunkSize_spec s e hse he]
  unfold ceilDiv defaultBlockInterval maxConcurrency
  split <;> constructor <;> omega

theorem naiveChunkSize_bounds (s e : Nat) (hse : s ≤ e) (he : e + 1 < U64) :
    1 ≤ naiveChunkSize s e ∧ naiveChunkSize s e ≤ defaultBlockInterval := by
  unfold naiveChunkSize
  rw [total_eq s e hse he]
  unfold defaultBlockInterval maxConcurrency
  dsimp only
  split
  · split <;> omega
  · omega

/-- **C6 (amended).**  For every `startBlock ≤ endBlock` with
`endBlock + defaultBlockInterval < 2^64` (so the wrapping `uint64` loop
arithmetic cannot overflow), the optimized range planner terminates and
emits inclusive chunks that are contiguous, non-overlapping and exactly
cover `[startBlock, endBlock]`, each chunk spanning at most the chunk
size, which is at most `defaultBlockInterval` (the RPC max range); the
size is the preferred `defaultBlockInterval` when at most
`maxConcurrency` preferred chunks are needed, and otherwise is raised to
`⌈total / maxConcurrency⌉` clamped to `defaultBlockInterval`.  At
`endBlock = 2^64 - 1` the loop does not terminate, which is why the
overflow bound is required (see the counterexample). -/
theorem C6_optimized_planner (s e : Nat) (hse : s ≤ e)
    (hwrap : e + defaultBlockInterval < U64) :
    ∃ cs, splitBlockRangeOptimized s e = some cs ∧
      ChunksWellFormed s e (optimizedChunkSize s e) cs ∧
      optimizedChunkSize s e ≤ defaultBlockInterval ∧
      (¬ ceilDiv (e - s + 1) defaultBlockInterval > maxConcurrency →
        optimizedChunkSize s e = defaultBlockInterval) ∧
      (ceilDiv (e - s + 1) defaultBlockInterval > maxConcurrency →
        optimizedChunkSize s e =
          min defaultBlockInterval (ceilDiv (e - s + 1) maxConcurrency)) := by
  have he : e + 1 < U64 := by
    have : 0 < defaultBlockInterval := by norm_num [defaultBlockInterval]
    omega
  obtain ⟨h1, h2⟩ := optimizedChunkSize_bounds s e hse he
  refine ⟨chunksFrom (optimizedChunkSize s e) s e, ?_, ?_, h2, ?_, ?_⟩
  · exact splitLoopGo_eq_chunksFrom e _ h1 (by omega) (e + 2) s
      (by omega) (by omega)
  · exact chunksFrom_wellFormed _ s e h1 hse
  · intro h
    rw [optimizedChunkSize_spec s e hse he, if_neg h]
  · intro h
    rw [optimizedChunkSize_spec s e hse he, if_pos h]

/-- **C6, counterexample.**  At `startBlock = endBlock = 2^64 - 1` (a
valid `uint64` input with `startBlock ≤ endBlock`) the Go loop in
`splitBlockRangeOptimized` never terminates: `start` wraps modulo `2^64`
and always satisfies `start ≤ endBlock`, so the planner emits no chunk
list at all — contradicting the claim for every `startBlock ≤ endBlock`. -/
theorem C6_counterexample :
    splitBlockRangeOptimized (U64 - 1) (U64 - 1) = none :=
  splitLoopGo_max_none _ _ _ (by norm_num [U64])

/-- Witness for `C6_optimized_planner` at `[0, 1]`. -/
theorem C6_optimized_planner_witness :
    ∃ cs, splitBlockRangeOptimized 0 1 = some cs ∧
      ChunksWellFormed 0 1 (optimizedChunkSize 0 1) cs ∧
      optimizedChunkSize 0 1 ≤ defaultBlockInterval ∧
      (¬ ceilDiv (1 - 0 + 1) defaultBlockInterval > maxConcurrency →
        optimizedChunkSize 0 1 = defaultBlockInterval) ∧
      (ceilDiv (1 - 0 + 1) defaultBlockInterval > maxConcurrency →
        optimizedChunkSize 0 1 =
          min defaultBlockInterval (ceilDiv (1 - 0 + 1) maxConcurrency)) :=
  C6_optimized_planner 0 1 (by decide) (by norm_num [U64, defaultBlockInterval])

/-- **C10 (amended).**  The naive `splitBlockRange` always clamps its
chunk size to at least 1, and for every `startBlock ≤ endBlock` with
`endBlock + defaultBlockInterval < 2^64` it terminates with a finite,
non-empty chunk list exactly covering the range.  The overflow bound is
required: at `endBlock = 2^64 - 1` the wrapping loop variable never
exceeds `endBlock` and the loop does not terminate (see the
counterexample). -/
theorem C10_naive_planner (s e : Nat) (hse : s ≤ e)
    (hwrap : e + defaultBlockInterval < U64) :
    1 ≤ naiveChunkSize s e ∧
    ∃ cs, splitBlockRange s e = some cs ∧
      ChunksWellFormed s e (naiveChunkSize s e) cs := by
  have he : e + 1 < U64 := by
    have : 0 < defaultBlockInterval := by norm_num [defaultBlockInterval]
    omega
  obtain ⟨h1, h2⟩ := naiveChunkSize_bounds s e hse he
  refine ⟨h1, chunksFrom (naiveChunkSize s e) s e, ?_, ?_⟩
  · exact splitLoopGo_eq_chunksFrom e _ h1 (by omega) (e + 2) s
      (by omega) (by omega)
  · exact chunksFrom_wellFormed _ s e h1 hse

/-- **C10, counterexample.**  At `startBlock = endBlock = 2^64 - 1` the
naive split loop never terminates (the wrapping `uint64` loop variable
always satisfies `start ≤ endBlock`), so no chunk list is produced —
contradicting the claim for every `startBlock ≤ endBlock`. -/
theorem C10_counterexample :
    splitBlockRange (U64 - 1) (U64 - 1) = none :=
  splitLoopGo_max_none _ _ _ (by norm_num [U64])

/-- Witness for `C10_naive_planner` at `[2, 7]`. -/
theorem C10_naive_planner_witness :
    1 ≤ naiveChunkSize 2 7 ∧
    ∃ cs, splitBlockRange 2 7 = some cs ∧
      ChunksWellFormed 2 7 (naiveChunkSize 2 7) cs :=
  C10_naive_planner 2 7 (by decide) (by norm_num [U64, defaultBlockInterval])

/-! ## Sorting and merging lemmas -/

theorem mem_insertSorted {α : Type} (less : α → α → Bool) (a x : α) :
    ∀ l : List α, x ∈ insertSorted less a l ↔ x = a ∨ x ∈ l
  | [] => by simp [insertSorted]
  | b :: l => by
    unfold insertSorted
    by_cases hab : less a b = true
    · rw [if_pos hab]
      simp [or_comm, or_assoc, or_left_comm]
    · rw [if_neg hab]
      rw [List.mem_cons, mem_insertSorted less a x l, List.mem_cons]
      tauto

theorem mem_sortSlice {α : Type} (less : α → α → Bool) (x : α) :
    ∀ l : List α, x ∈ sortSlice less l → x ∈ l
  | [] => by simp [sortSlice]
  | a :: l => by
    unfold sortSlice
    intro h
    rcases (mem_insertSorted less a x (sortSlice less l)).mp h with rfl | h2
    · exact List.mem_cons_self _ _
    · exact List.mem_cons_of_mem _ (mem_sortSlice less x l h2)

theorem pairwise_insertSorted {α : Type} (less : α → α → Bool)
    (hasym : ∀ x y, less x y = true → less y x = false)
    (htr : ∀ x y z, less x y = true → less z y = false → less z x = false)
    (a : α) :
    ∀ l : List α, l.Pairwise (fun x y => less y x = false) →
      (insertSorted less a l).Pairwise (fun x y => less y x = false)
  | [], _ => by simp [insertSorted]
  | b :: l, h => by
    rw [List.pairwise_cons] at h
    obtain ⟨hb, hl⟩ := h
    unfold insertSorted
    by_cases hab : less a b = true
    · rw [if_pos hab]
      refine List.pairwise_cons.mpr ⟨?_, List.pairwise_cons.mpr ⟨hb, hl⟩⟩
      intro c hc
      rcases List.mem_cons.mp hc with rfl | hcl
      · exact hasym a c hab
      · exact htr a b c hab (hb c hcl)
    · have hab2 : less a b = false := by
        revert hab
        cases less a b <;> simp
      rw [if_neg hab]
      refine List.pairwise_cons.mpr
        ⟨?_, pairwise_insertSorted less hasym htr a l hl⟩
      intro c hc
      rcases (mem_insertSorted less a c l).mp hc with rfl | hcl
      · exact hab2
      · exact hb c hcl

theorem pairwise_sortSlice {α : Type} (less : α → α → Bool)
    (hasym : ∀ x y, less x y = true → less y x = false)
    (htr : ∀ x y z, less x y = true → less z y = false → less z x = false) :
    ∀ l : List α, (sortSlice less l).Pairwise (fun x y => less y x = false)
  | [] => by simp [sortSlice]
  | a :: l =>
    pairwise_insertSorted less hasym htr a _
      (pairwise_sortSlice less hasym htr l)

theorem mem_filterRounds (s e : Nat) (txs : List Transmission)
    (t : Transmission) (h : t ∈ filterRounds s e txs) :
    s ≤ roundID32 t ∧ roundID32 t ≤ e := by
  have := List.of_mem_filter h
  simpa using this

theorem mergeNaive_nil (results : List (Except Unit (List Transmission)))
    (perm : List Nat)
    (hall : ∀ r ∈ results, r = Except.ok ([] : List Transmission)) :
    mergeNaive results perm = [] := by
  unfold mergeNaive
  rw [List.flatten_eq_nil_iff]
  intro l hl
  obtain ⟨i, _, rfl⟩ := List.mem_map.mp hl
  rw [List.getD_eq_getElem?_getD]
  cases hg : results[i]? with
  | none => simp [okList]
  | some r =>
    have := hall r (List.getElem?_mem hg)
    subst this
    simp [okList]

theorem mergeOptimized_nil (results : List (Except Unit (List Transmission)))
    (perm : List Nat)
    (hall : ∀ r ∈ results, r = Except.ok ([] : List Transmission)) :
    mergeOptimized results perm = [] := by
  unfold mergeOptimized
  rw [List.flatten_eq_nil_iff]
  intro l hl
  obtain ⟨pr, hpr, rfl⟩ := List.mem_map.mp hl
  have hpr2 := mem_sortSlice _ _ _ hpr
  obtain ⟨i, _, rfl⟩ := List.mem_map.mp hpr2
  rw [List.getD_eq_getElem?_getD]
  cases hg : results[i]? with
  | none => simp [okList]
  | some r =>
    have := hall r (List.getElem?_mem hg)
    subst this
    simp [okList]

/-! ## Result-shape lemmas for the fetchers -/

theorem fetchByRoundsOptimized_ok (chain : Chain) (fuel : Nat)
    (cache : RoundCache) (now : Nat) (perm : List Nat) (s e : Nat)
    (r : TransmissionResult) (c2 : RoundCache)
    (h : fetchByRoundsOptimized chain fuel cache now perm s e =
      (some (.ok r), c2)) :
    ∃ txs, r.transmissions = filterRounds s e txs := by
  unfold fetchByRoundsOptimized at h
  split at h
  · simp at h
  · split at h
    · simp at h
    · simp at h
    · split at h
      · simp at h
      · simp at h
      · split at h
        · simp at h
        · simp at h
        · simp only [Prod.mk.injEq, Option.some.injEq, Except.ok.injEq] at h
          obtain ⟨h1, -⟩ := h
          exact ⟨_, by rw [← h1]⟩

theorem fetchByRounds_ok (chain : Chain) (perm : List Nat) (s e : Nat)
    (r : TransmissionResult)
    (h : fetchByRounds chain perm s e = some (.ok r)) :
    ∃ txs, r.transmissions = filterRounds s e txs := by
  unfold fetchByRounds at h
  split at h
  · simp at h
  · split at h
    · simp at h
    · simp at h
    · simp only [Option.some.injEq, Except.ok.injEq] at h
      exact ⟨_, by rw [← h]⟩

theorem fetchByBlocksOptimized_ok (chain : Chain) (perm : List Nat)
    (s e : Nat) (r : TransmissionResult)
    (h : fetchByBlocksOptimized chain perm s e = some (.ok r)) :
    ∃ txs0, r.transmissions = sortSlice blockLess txs0 := by
  unfold fetchByBlocksOptimized at h
  split at h
  · simp at h
  · split at h
    · simp at h
    · simp at h
    · simp only [Option.some.injEq, Except.ok.injEq] at h
      exact ⟨_, by rw [← h]⟩

/-! ## Claim C2: round filtering -/

/-- **C2.**  For every round range with `startRound ≤ endRound`, every
transmission in a successfully returned `FetchByRounds` result — of the
optimized fetcher as well as of the naive one — has its synthesized
round id `(epoch <<< 8) ||| subround` (computed in `uint32`) inside
`[startRound, endRound]`: both implementations filter the harvested list
with exactly this predicate. -/
theorem C2_round_filtering (chain : Chain) (fuel : Nat) (cache : RoundCache)
    (now : Nat) (perm permN : List Nat) (s e : Nat)
    (r rN : TransmissionResult) (c2 : RoundCache)
    (hse : s ≤ e)
    (hopt : fetchByRoundsOptimized chain fuel cache now perm s e =
      (some (.ok r), c2))
    (hnaive : fetchByRounds chain permN s e = some (.ok rN)) :
    (∀ t ∈ r.transmissions, s ≤ roundID32 t ∧ roundID32 t ≤ e) ∧
    (∀ t ∈ rN.transmissions, s ≤ roundID32 t ∧ roundID32 t ≤ e) := by
  constructor
  · intro t ht
    obtain ⟨txs, htx⟩ := fetchByRoundsOptimized_ok chain fuel cache now
      perm s e r c2 hopt
    rw [htx] at ht
    exact mem_filterRounds s e txs t ht
  · intro t ht
    obtain ⟨txs, htx⟩ := fetchByRounds_ok chain permN s e rN hnaive
    rw [htx] at ht
    exact mem_filterRounds s e txs t ht

/-- Witness for `C2_round_filtering` on the demo chain, rounds `[7, 7]`. -/
theorem C2_round_filtering_witness :
    (∀ t ∈ (TransmissionResult.mk 1 7 7 [demoTx]).transmissions,
      7 ≤ roundID32 t ∧ roundID32 t ≤ 7) ∧
    (∀ t ∈ (TransmissionResult.mk 1 7 7 [demoTx]).transmissions,
      7 ≤ roundID32 t ∧ roundID32 t ≤ 7) :=
  C2_round_filtering demoChain 20 [] 0 [0] (List.range 11) 7 7
    ⟨1, 7, 7, [demoTx]⟩ ⟨1, 7, 7, [demoTx]⟩
    (putToCache [] (1, 7) 6 0)
    (by decide) (by decide) (by decide)

/-! ## Claim C3: result ordering -/

/-- **C3, counterexample.**  The naive fetcher concatenates chunk results
in goroutine completion order without any sort
(transmission_fetcher.go:207-213): on `c3Chain` (events at blocks 0 and
1, split into chunks `[0,0]` and `[1,1]`) with completion order
`[1, 0]`, `FetchByBlocks` succeeds and returns the transmissions with
strictly decreasing block numbers — so the returned list is not
non-decreasing in `(blockNumber, logIndex)` (the entity stores no log
index; the block-number component already decreases). -/
theorem C3_counterexample :
    fetchByBlocks c3Chain [1, 0] 0 1 =
      some (.ok ⟨1, 258, 257, [c3Tx1, c3Tx0]⟩) ∧
    ¬ ([c3Tx1, c3Tx0].Pairwise
        (fun a b => a.blockNumber ≤ b.blockNumber)) := by
  constructor
  · decide
  · decide

/-- **C3 (amended).**  The optimized `FetchByBlocks` sorts the merged
list by block number with `sort.Slice` before returning it, so for every
chain, every block range and every goroutine completion order `perm`,
a successful result is non-decreasing in `blockNumber`.  The
`Transmission` entity stores no log index, so the `(blockNumber,
logIndex)` ordering of the claim is expressible only in its block-number
component; and the naive fetcher returns completion order (see the
counterexample), so the claim holds only for the optimized fetcher. -/
theorem C3_optimized_ordering (chain : Chain) (perm : List Nat)
    (s e : Nat) (r : TransmissionResult)
    (h : fetchByBlocksOptimized chain perm s e = some (.ok r)) :
    r.transmissions.Pairwise (fun a b => a.blockNumber ≤ b.blockNumber) := by
  obtain ⟨txs0, htx⟩ := fetchByBlocksOptimized_ok chain perm s e r h
  rw [htx]
  have hp := pairwise_sortSlice blockLess
    (by intro x y hxy; simp [blockLess] at hxy ⊢; omega)
    (by intro x y z hxy hzy; simp [blockLess] at hxy hzy ⊢; omega)
    txs0
  refine hp.imp ?_
  intro a b hab
  simp [blockLess] at hab
  omega

/-- Witness for `C3_optimized_ordering` on `c3Chain` with the reversed
completion order `[1, 0]`: the optimized fetcher still returns the
records sorted by block number. -/
theorem C3_optimized_ordering_witness :
    (TransmissionResult.mk 1 257 258 [c3Tx0, c3Tx1]).transmissions.Pairwise
      (fun a b => a.blockNumber ≤ b.blockNumber) :=
  C3_optimized_ordering c3Chain [1, 0] 0 1 ⟨1, 257, 258, [c3Tx0, c3Tx1]⟩
    (by decide)

/-! ## Claim C8: empty range -/

theorem fetchTransmissionsInRange_of_split_none (chain : Chain)
    (perm : List Nat) (s e : Nat) (h : splitBlockRange s e = none) :
    fetchTransmissionsInRange chain perm s e = none := by
  unfold fetchTransmissionsInRange
  rw [h]

theorem fetchTransmissionsInRangeOptimized_of_split_none (chain : Chain)
    (perm : List Nat) (s e : Nat) (h : splitBlockRangeOptimized s e = none) :
    fetchTransmissionsInRangeOptimized chain perm s e = none := by
  unfold fetchTransmissionsInRangeOptimized
  rw [h]

theorem fetchByBlocks_of_range_none (chain : Chain) (perm : List Nat)
    (s e : Nat) (hse : ¬ s > e)
    (h : fetchTransmissionsInRange chain perm s e = none) :
    fetchByBlocks chain perm s e = none := by
  unfold fetchByBlocks
  rw [if_neg hse, h]

theorem fetchByBlocksOptimized_of_range_none (chain : Chain)
    (perm : List Nat) (s e : Nat) (hse : ¬ s > e)
    (h : fetchTransmissionsInRangeOptimized chain perm s e = none) :
    fetchByBlocksOptimized chain perm s e = none := by
  unfold fetchByBlocksOptimized
  rw [if_neg hse, h]

/-- **C8, counterexample.**  The claim quantifies over every event-free
block range, including `[n, n]`; but at `n = 2^64 - 1` the chunk loop of
the range planner diverges (its wrapping `uint64` loop variable always
satisfies `start ≤ endBlock`, see `splitLoopGo_max_none`), so on the
event-free chain neither `FetchByBlocks` implementation ever returns
`{startRound := 0, endRound := 0, transmissions := []}` — the call does
not return at all, modelled as `none` for every fuel bound. -/
theorem C8_counterexample :
    fetchByBlocks emptyChain [0] (U64 - 1) (U64 - 1) = none ∧
    fetchByBlocksOptimized emptyChain [0] (U64 - 1) (U64 - 1) = none :=
  ⟨fetchByBlocks_of_range_none emptyChain [0] (U64 - 1) (U64 - 1) (by omega)
      (fetchTransmissionsInRange_of_split_none emptyChain [0] (U64 - 1)
        (U64 - 1) (splitLoopGo_max_none _ _ _ (by norm_num [U64]))),
    fetchByBlocksOptimized_of_range_none emptyChain [0] (U64 - 1) (U64 - 1)
      (by omega)
      (fetchTransmissionsInRangeOptimized_of_split_none emptyChain [0]
        (U64 - 1) (U64 - 1) (splitLoopGo_max_none _ _ _ (by norm_num [U64])))⟩

/-- **C8 (amended).**  For every block range `[s, e]` with `s ≤ e` and
the planner no-overflow bound `e + defaultBlockInterval < 2^64` in which
the chain reports no `NewTransmission` events (including a single-block
range `[n, n]`), both `FetchByBlocks` implementations succeed and return
`{startRound := 0, endRound := 0, transmissions := []}` — not an error —
for every goroutine completion order.  The overflow bound is required:
at `endBlock = 2^64 - 1` the planner loop diverges and the call never
returns (see the counterexample). -/
theorem C8_empty_range (chain : Chain) (perm permN : List Nat) (s e : Nat)
    (hse : s ≤ e) (hwrap : e + defaultBlockInterval < U64)
    (hempty : ∀ a b, s ≤ a → b ≤ e → chain.events a b = .ok []) :
    fetchByBlocksOptimized chain perm s e =
      some (.ok ⟨chain.contract, 0, 0, []⟩) ∧
    fetchByBlocks chain permN s e =
      some (.ok ⟨chain.contract, 0, 0, []⟩) := by
  have he : e + 1 < U64 := by
    have : 0 < defaultBlockInterval := by norm_num [defaultBlockInterval]
    omega
  have hget : ∀ c : BlockRange, s ≤ c.startBlock → c.endBlock ≤ e →
      getTransmissions chain c.startBlock c.endBlock = .ok [] := by
    intro c h1 h2
    unfold getTransmissions
    rw [hempty c.startBlock c.endBlock h1 h2]
    rfl
  have hresults : ∀ (S : Nat), 1 ≤ S →
      ∀ r ∈ chunkResults chain (chunksFrom S s e),
        r = Except.ok ([] : List Transmission) := by
    intro S hS r hr
    obtain ⟨c, hc, rfl⟩ := List.mem_map.mp hr
    obtain ⟨h1, -, h3, -⟩ := chunksFrom_mem_bounds S hS s e c hc
    exact hget c h1 h3
  constructor
  · obtain ⟨h1, h2⟩ := optimizedChunkSize_bounds s e hse he
    unfold fetchByBlocksOptimized
    rw [if_neg (by omega)]
    unfold fetchTransmissionsInRangeOptimized
    rw [show splitBlockRangeOptimized s e =
        some (chunksFrom (optimizedChunkSize s e) s e) from
      splitLoopGo_eq_chunksFrom e _ h1 (by omega) (e + 2) s (by omega)
        (by omega)]
    dsimp only
    rw [show (chunkResults chain
          (chunksFrom (optimizedChunkSize s e) s e)).any
          (fun r => !(isOkE r)) = false from
      List.any_eq_false.mpr (by
        intro x hx
        rw [hresults _ h1 x hx]
        simp [isOkE])]
    simp only [Bool.false_eq_true, if_false]
    rw [mergeOptimized_nil _ perm (hresults _ h1)]
    rfl
  · obtain ⟨h1, h2⟩ := naiveChunkSize_bounds s e hse he
    unfold fetchByBlocks
    rw [if_neg (by omega)]
    unfold fetchTransmissionsInRange
    rw [show splitBlockRange s e =
        some (chunksFrom (naiveChunkSize s e) s e) from
      splitLoopGo_eq_chunksFrom e _ h1 (by omega) (e + 2) s (by omega)
        (by omega)]
    dsimp only
    rw [show (chunkResults chain
          (chunksFrom (naiveChunkSize s e) s e)).any
          (fun r => !(isOkE r)) = false from
      List.any_eq_false.mpr (by
        intro x hx
        rw [hresults _ h1 x hx]
        simp [isOkE])]
    simp only [Bool.false_eq_true, if_false]
    rw [mergeNaive_nil _ permN (hresults _ h1)]
    rfl

/-- Witness for `C8_empty_range` on the event-free chain over the
single-block range `[5, 5]`. -/
theorem C8_empty_range_witness :
    fetchByBlocksOptimized emptyChain [0] 5 5 =
      some (.ok ⟨emptyChain.contract, 0, 0, []⟩) ∧
    fetchByBlocks emptyChain [0] 5 5 =
      some (.ok ⟨emptyChain.contract, 0, 0, []⟩) :=
  C8_empty_range emptyChain [0] [0] 5 5 (by decide)
    (by norm_num [U64, defaultBlockInterval])
    (fun _ _ _ _ => rfl)

/-! ## Claim C7: round locator cache -/

theorem lookup_putToCache (cache : RoundCache) (key : Nat × Nat)
    (b now : Nat) :
    (putToCache cache key b now).lookup key = some ⟨b, now⟩ := by
  unfold putToCache
  dsimp only
  split
  · rw [List.filter_cons]
    rw [if_pos (by simp)]
    simp [List.lookup_cons]
  · simp [List.lookup_cons]

/-- **C7, counterexample.**  The freshness check of `getFromCache`
(ocr2_aggregator_service.go:806) rejects an entry only when
`time.Since(entry.timestamp) > cacheExpiration`, so an entry whose age is
exactly the TTL is still used — while the claim (and spec invariant)
says a hit is used only if `now - insertedAt < TTL` (strictly).  At age
exactly `cacheExpiration` the entry is returned although
`now - insertedAt < TTL` is false. -/
theorem C7_counterexample :
    getFromCache (putToCache [] (1, 7) 6 0) (1, 7) cacheExpiration = 6 ∧
    ¬ (cacheExpiration - (0 : Nat) < cacheExpiration) :=
  ⟨by decide, by decide⟩

/-- **C7 (amended).**  If a `findBlockForRound` call misses the cache and
locates the exact round — the only path that writes the cache
(ocr2_aggregator_service.go:484); the closest-block fallback does not —
at a nonzero block `b`, then a second call for the same
`(contract, round)` at any time at most `cacheExpiration` (= 5 min)
later issues zero RPCs and returns the same block `b` straight from the
cache; and in general a cached entry is used only when
`now - insertedAt ≤ cacheExpiration` (non-strict: see the
counterexample for the boundary). -/
theorem C7_locator_idempotent (chain : Chain) (fuel fuel2 : Nat)
    (cache : RoundCache) (now now2 target b : Nat)
    (isStart isStart2 : Bool)
    (hmiss : getFromCache cache (chain.contract, target) now = 0)
    (hres : (findBlockForRound chain fuel cache now target isStart).1 =
      some (.ok b))
    (hcache : (findBlockForRound chain fuel cache now target isStart).2.1 =
      putToCache cache (chain.contract, target) b now)
    (hb : 0 < b) (hle : now ≤ now2) (httl : now2 - now ≤ cacheExpiration) :
    findBlockForRound chain fuel2
        (putToCache cache (chain.contract, target) b now) now2 target
        isStart2 =
      (some (.ok b), putToCache cache (chain.contract, target) b now, 0) ∧
    (∀ (c : RoundCache) (k : Nat × Nat) (t : Nat) (entry : CacheEntry),
      c.lookup k = some entry → getFromCache c k t ≠ 0 →
      t - entry.timestamp ≤ cacheExpiration) := by
  constructor
  · have hg : getFromCache (putToCache cache (chain.contract, target) b now)
        (chain.contract, target) now2 = b := by
      unfold getFromCache
      rw [lookup_putToCache]
      dsimp only
      rw [if_neg (by omega)]
    unfold findBlockForRound
    dsimp only
    rw [hg]
    rw [if_pos hb]
  · intro c k t entry hlk hne
    unfold getFromCache at hne
    rw [hlk] at hne
    dsimp only at hne
    by_cases hgt : t - entry.timestamp > cacheExpiration
    · rw [if_pos hgt] at hne
      exact absurd rfl hne
    · omega

/-- Witness for `C7_locator_idempotent` on the demo chain: the first
call locates round 7 at block 6 through the binary search and caches it;
the second call, 60 seconds later, returns block 6 with zero RPCs. -/
theorem C7_locator_idempotent_witness :
    (findBlockForRound demoChain 20 (putToCache [] (1, 7) 6 0) 60 7 false =
      (some (.ok 6), putToCache [] (1, 7) 6 0, 0)) ∧
    (∀ (c : RoundCache) (k : Nat × Nat) (t : Nat) (entry : CacheEntry),
      c.lookup k = some entry → getFromCache c k t ≠ 0 →
      t - entry.timestamp ≤ cacheExpiration) :=
  C7_locator_idempotent demoChain 20 20 [] 0 60 7 6 true false
    (by decide) (by decide) (by decide) (by decide) (by decide) (by decide)

/-! ## Claim C4: concurrency bound -/

theorem set_getElem_eq {α : Type} :
    ∀ (l : List α) (i : Nat) (a : α), l[i]? = some a → l.set i a = l
  | [], i, a, h => by simp at h
  | x :: l, 0, a, h => by
    simp only [List.getElem?_cons_zero, Option.some.injEq] at h
    subst h
    rfl
  | x :: l, i + 1, a, h => by
    simp only [List.getElem?_cons_succ] at h
    simp [List.set, set_getElem_eq l i a h]

theorem countP_set_add {α : Type} (q : α → Bool) :
    ∀ (l : List α) (i : Nat) (a b : α), l[i]? = some a →
      (l.set i b).countP q + (if q a then 1 else 0) =
        l.countP q + (if q b then 1 else 0)
  | [], i, a, b, h => by simp at h
  | x :: l, 0, a, b, h => by
    simp only [List.getElem?_cons_zero, Option.some.injEq] at h
    subst h
    simp only [List.set, List.countP_cons]
    omega
  | x :: l, i + 1, a, b, h => by
    simp only [List.getElem?_cons_succ] at h
    have := countP_set_add q l i a b h
    simp only [List.set, List.countP_cons]
    omega

theorem schedStep_inv (p p2 : List Harvest) (a : SchedAction)
    (hinv : ∀ h ∈ p, inflightCount h ≤ h.cap)
    (hstep : schedStep p a = some p2) :
    ∀ h ∈ p2, inflightCount h ≤ h.cap := by
  cases a with
  | acquire hi ti =>
    unfold schedStep at hstep
    dsimp only at hstep
    cases hp : p[hi]? with
    | none => rw [hp] at hstep; simp at hstep
    | some h0 =>
      rw [hp] at hstep
      dsimp only at hstep
      cases ht : h0.tasks[ti]? with
      | none => rw [ht] at hstep; simp at hstep
      | some ph =>
        rw [ht] at hstep
        cases ph with
        | inflight => simp at hstep
        | done => simp at hstep
        | idle =>
          dsimp only at hstep
          split at hstep
          · rename_i hguard
            simp only [Option.some.injEq] at hstep
            subst hstep
            intro h hmem
            rcases List.mem_or_eq_of_mem_set hmem with hmem2 | rfl
            · exact hinv h hmem2
            · have hcnt := countP_set_add (fun t => t == TaskPhase.inflight)
                h0.tasks ti .idle .inflight ht
              simp at hcnt
              unfold inflightCount at hguard ⊢
              dsimp only
              omega
          · simp at hstep
  | release hi ti =>
    unfold schedStep at hstep
    dsimp only at hstep
    cases hp : p[hi]? with
    | none => rw [hp] at hstep; simp at hstep
    | some h0 =>
      rw [hp] at hstep
      dsimp only at hstep
      cases ht : h0.tasks[ti]? with
      | none => rw [ht] at hstep; simp at hstep
      | some ph =>
        rw [ht] at hstep
        cases ph with
        | idle => simp at hstep
        | done => simp at hstep
        | inflight =>
          dsimp only at hstep
          simp only [Option.some.injEq] at hstep
          subst hstep
          intro h hmem
          rcases List.mem_or_eq_of_mem_set hmem with hmem2 | rfl
          · exact hinv h hmem2
          · have hcnt := countP_set_add (fun t => t == TaskPhase.inflight)
              h0.tasks ti .inflight .done ht
            simp at hcnt
            have hh0 := hinv h0 (List.getElem?_mem hp)
            unfold inflightCount at hh0 ⊢
            dsimp only
            omega

theorem schedRun_inv :
    ∀ (acts : List SchedAction) (p p2 : List Harvest),
      (∀ h ∈ p, inflightCount h ≤ h.cap) → schedRun p acts = some p2 →
      ∀ h ∈ p2, inflightCount h ≤ h.cap
  | [], p, p2, hinv, hrun => by
    simp only [schedRun, Option.some.injEq] at hrun
    subst hrun
    exact hinv
  | a :: rest, p, p2, hinv, hrun => by
    unfold schedRun at hrun
    cases hs : schedStep p a with
    | none => rw [hs] at hrun; simp at hrun
    | some pm =>
      rw [hs] at hrun
      exact schedRun_inv rest pm p2 (schedStep_inv p pm a hinv hs) hrun

theorem schedStep_caps (p p2 : List Harvest) (a : SchedAction)
    (hstep : schedStep p a = some p2) :
    p2.map (fun h => h.cap) = p.map (fun h => h.cap) := by
  cases a with
  | acquire hi ti =>
    unfold schedStep at hstep
    dsimp only at hstep
    cases hp : p[hi]? with
    | none => rw [hp] at hstep; simp at hstep
    | some h0 =>
      rw [hp] at hstep
      dsimp only at hstep
      cases ht : h0.tasks[ti]? with
      | none => rw [ht] at hstep; simp at hstep
      | some ph =>
        rw [ht] at hstep
        cases ph with
        | inflight => simp at hstep
        | done => simp at hstep
        | idle =>
          dsimp only at hstep
          split at hstep
          · simp only [Option.some.injEq] at hstep
            subst hstep
            rw [List.map_set]
            exact set_getElem_eq _ hi _ (by rw [List.getElem?_map, hp]; rfl)
          · simp at hstep
  | release hi ti =>
    unfold schedStep at hstep
    dsimp only at hstep
    cases hp : p[hi]? with
    | none => rw [hp] at hstep; simp at hstep
    | some h0 =>
      rw [hp] at hstep
      dsimp only at hstep
      cases ht : h0.tasks[ti]? with
      | none => rw [ht] at hstep; simp at hstep
      | some ph =>
        rw [ht] at hstep
        cases ph with
        | idle => simp at hstep
        | done => simp at hstep
        | inflight =>
          dsimp only at hstep
          simp only [Option.some.injEq] at hstep
          subst hstep
          rw [List.map_set]
          exact set_getElem_eq _ hi _ (by rw [List.getElem?_map, hp]; rfl)

theorem schedRun_caps :
    ∀ (acts : List SchedAction) (p p2 : List Harvest),
      schedRun p acts = some p2 →
      p2.map (fun h => h.cap) = p.map (fun h => h.cap)
  | [], p, p2, hrun => by
    simp only [schedRun, Option.some.injEq] at hrun
    subst hrun
    rfl
  | a :: rest, p, p2, hrun => by
    unfold schedRun at hrun
    cases hs : schedStep p a with
    | none => rw [hs] at hrun; simp at hrun
    | some pm =>
      rw [hs] at hrun
      rw [schedRun_caps rest pm p2 hrun, schedStep_caps p pm a hs]

/-- **C4 (amended).**  Within a single `fetchTransmissionsInRange` call
the buffered-channel semaphore bounds the simultaneous in-flight
`GetTransmissions` RPCs by the call's capacity (`maxConcurrency` = 30):
in every state reachable under any scheduling of one harvest, the
in-flight count is at most `maxConcurrency`.  The semaphore is created
per call (there is no process-wide one), so the bound does not hold
across concurrently active harvests — see the counterexample, where two
harvests reach 31 simultaneous in-flight RPCs in one process. -/
theorem C4_single_harvest_bound (n : Nat) (acts : List SchedAction)
    (p : List Harvest)
    (hrun : schedRun [initHarvest maxConcurrency n] acts = some p) :
    totalInflight p ≤ maxConcurrency := by
  have hinit : ∀ h ∈ [initHarvest maxConcurrency n],
      inflightCount h ≤ h.cap := by
    intro h hm
    rcases List.mem_singleton.mp hm with rfl
    unfold inflightCount initHarvest
    dsimp only
    rw [List.countP_eq_zero.mpr
      (by intro x hx; rw [List.eq_of_mem_replicate hx]; decide)]
    exact Nat.zero_le _
  have hinv := schedRun_inv acts _ p hinit hrun
  have hcaps := schedRun_caps acts _ p hrun
  cases p with
  | nil => simp at hcaps
  | cons h t =>
    cases t with
    | cons h2 t2 => simp [initHarvest] at hcaps
    | nil =>
      simp only [List.map_cons, List.map_nil, initHarvest,
        List.cons.injEq] at hcaps
      unfold totalInflight
      simp only [List.map_cons, List.map_nil, List.sum_cons, List.sum_nil,
        Nat.add_zero]
      have := hinv h (List.mem_singleton.mpr rfl)
      omega

/-- **C4, counterexample.**  The semaphore is created inside each
`fetchTransmissionsInRange` call (`sem := make(chan struct{},
f.concurrency)`), not shared process-wide: with two harvests active in
one process, 30 goroutines of the first and 1 goroutine of the second
can all hold semaphore slots at the same instant, giving 31 > 30
simultaneous in-flight RPCs — contradicting the claim that the bound
holds across all active harvests. -/
theorem C4_counterexample :
    schedRun c4Init c4Script =
      some [⟨maxConcurrency, List.replicate 30 .inflight⟩,
        ⟨maxConcurrency, [.inflight]⟩] ∧
    totalInflight [⟨maxConcurrency, List.replicate 30 .inflight⟩,
        ⟨maxConcurrency, [.inflight]⟩] = 31 ∧
    ¬ (31 ≤ maxConcurrency) :=
  ⟨by decide, by decide, by decide⟩

/-- Witness for `C4_single_harvest_bound`: one harvest of two chunk
goroutines after its first semaphore acquisition. -/
theorem C4_single_harvest_bound_witness :
    totalInflight [⟨maxConcurrency, [.inflight, .idle]⟩] ≤ maxConcurrency :=
  C4_single_harvest_bound 2 [SchedAction.acquire 0 0]
    [⟨maxConcurrency, [.inflight, .idle]⟩] (by decide)

end OCRChecker
